import Mathlib

/-!
Verification of the onboarding flow engine of the `travai` repository
(`src/services/aiService.ts`).  The engine is the `AIService` class: a
cursor `currentStepIndex` over a fixed five-step script
`onboardingSteps`, with operations `getCurrentQuestion`,
`processUserResponse`, `isOnboardingComplete`, `getProgress`, `reset`
and `processWithAI`.

The embedding is a direct translation: the mutable class instance
becomes a record, each mutating method becomes a function returning the
updated record (paired with its returned string where the method
returns one), and the JavaScript `number` returned by `getProgress`
is modelled as an exact rational, following the specification's reading
of it as a real number with no rounding.
-/

/-- One entry of the `onboardingSteps` array (`OnboardingStep` in
`src/types/voiceAgent.ts`): `id`, `question`, a `completed` flag and an
optional recorded `answer` (`undefined` becomes `none`). -/
structure OnboardingStep where
  id : String
  question : String
  completed : Bool
  answer : Option String
  deriving DecidableEq, Repr

/-- The state of the `AIService` class: the cursor `currentStepIndex`
and the `onboardingSteps` array. -/
structure AIService where
  currentStepIndex : Nat
  onboardingSteps : List OnboardingStep
  deriving DecidableEq, Repr

namespace AIService

/-- The five-step script the class field `onboardingSteps` is
initialised with (answers start absent, `completed` starts false). -/
def initSteps : List OnboardingStep :=
  [ { id := "1",
      question := "Hello! Welcome to our app. I\x27m your voice assistant. What\x27s your name?",
      completed := false, answer := none },
    { id := "2",
      question := "Nice to meet you! What brings you to our app today?",
      completed := false, answer := none },
    { id := "3",
      question := "Great! Are you interested in exploring features like productivity, entertainment, or learning?",
      completed := false, answer := none },
    { id := "4",
      question := "Perfect! Would you like to enable notifications to stay updated?",
      completed := false, answer := none },
    { id := "5",
      question := "All set! You\x27re ready to get started. Would you like a quick tour of the app?",
      completed := false, answer := none } ]

/-- A freshly constructed `AIService` (`new AIService()`):
`currentStepIndex = 0` and the script above. -/
def init : AIService :=
  { currentStepIndex := 0, onboardingSteps := initSteps }

/-- `getCurrentQuestion()`: the question at `currentStepIndex`, or the
fixed completion message once the index has run off the end. -/
def getCurrentQuestion (s : AIService) : String :=
  if h : s.currentStepIndex < s.onboardingSteps.length then
    (s.onboardingSteps.get ⟨s.currentStepIndex, h⟩).question
  else
    "Thank you for completing the onboarding! Let\x27s get started."

/-- `processUserResponse(userInput)`: when the script is not finished,
mark the current step completed, store the answer, advance the cursor,
and return the next question or the just-completed message; otherwise
leave the state alone and return the already-complete message.  The
returned string is paired with the post-call state. -/
def processUserResponse (s : AIService) (userInput : String) : String × AIService :=
  if h : s.currentStepIndex < s.onboardingSteps.length then
    let updated := s.onboardingSteps.set s.currentStepIndex
      { s.onboardingSteps.get ⟨s.currentStepIndex, h⟩ with
        completed := true, answer := some userInput }
    let s2 : AIService :=
      { currentStepIndex := s.currentStepIndex + 1, onboardingSteps := updated }
    if h2 : s2.currentStepIndex < updated.length then
      ((updated.get ⟨s2.currentStepIndex, h2⟩).question, s2)
    else
      ("Wonderful! Your onboarding is complete. Welcome aboard!", s2)
  else
    ("Thank you! Your onboarding is complete.", s)

/-- `isOnboardingComplete()`: `currentStepIndex >= onboardingSteps.length`. -/
def isOnboardingComplete (s : AIService) : Bool :=
  s.onboardingSteps.length ≤ s.currentStepIndex

/-- `getProgress()`: `(currentStepIndex / onboardingSteps.length) * 100`,
as an exact rational. -/
def getProgress (s : AIService) : ℚ :=
  (s.currentStepIndex : ℚ) / (s.onboardingSteps.length : ℚ) * 100

/-- `reset()`: cursor back to `0`; every step gets `completed = false`
and its answer cleared. -/
def reset (s : AIService) : AIService :=
  { currentStepIndex := 0,
    onboardingSteps :=
      s.onboardingSteps.map fun step => { step with completed := false, answer := none } }

/-- `processWithAI(userInput)`: the placeholder AI entry point; it
delegates to `processUserResponse` (the `async` wrapper always
resolves, so the promise is elided). -/
def processWithAI (s : AIService) (userInput : String) : String × AIService :=
  processUserResponse s userInput

/-- Runs `processUserResponse` once per element of `inputs`, in order,
keeping only the final state. -/
def runAnswers (s : AIService) (inputs : List String) : AIService :=
  inputs.foldl (fun st inp => (processUserResponse st inp).2) s

/-- The states an `AIService` instance can actually be in: the fresh
state, closed under `processUserResponse` and `reset` (the only
state-changing operations). -/
inductive Reachable : AIService → Prop
  | init : Reachable init
  | answer (s : AIService) (input : String) :
      Reachable s → Reachable (processUserResponse s input).2
  | doReset (s : AIService) : Reachable s → Reachable (reset s)

/-- The `FlowState` invariant: the cursor stays within
`0 ≤ currentIndex ≤ len(steps)`, steps strictly before the cursor are
completed, steps at or after it are not. -/
def Inv (s : AIService) : Prop :=
  s.currentStepIndex ≤ s.onboardingSteps.length ∧
  ∀ i (h : i < s.onboardingSteps.length),
    (s.onboardingSteps.get ⟨i, h⟩).completed = decide (i < s.currentStepIndex)

end AIService

namespace AIService

/-- In the unfinished branch, `processUserResponse` leaves the state
with the cursor advanced and exactly the current step overwritten. -/
theorem processUserResponse_snd_of_lt (s : AIService) (a : String)
    (h : s.currentStepIndex < s.onboardingSteps.length) :
    (processUserResponse s a).2 =
      { currentStepIndex := s.currentStepIndex + 1,
        onboardingSteps := s.onboardingSteps.set s.currentStepIndex
          { s.onboardingSteps.get ⟨s.currentStepIndex, h⟩ with
            completed := true, answer := some a } } := by
  rw [processUserResponse, dif_pos h]
  dsimp only
  split <;> rfl

/-- In the already-finished branch, `processUserResponse` does not
change the state. -/
theorem processUserResponse_snd_of_ge (s : AIService) (a : String)
    (h : s.onboardingSteps.length ≤ s.currentStepIndex) :
    (processUserResponse s a).2 = s := by
  rw [processUserResponse, dif_neg (Nat.not_lt.2 h)]

/-- In the already-finished branch, `processUserResponse` returns the
fixed acknowledgment. -/
theorem processUserResponse_fst_of_ge (s : AIService) (a : String)
    (h : s.onboardingSteps.length ≤ s.currentStepIndex) :
    (processUserResponse s a).1 = "Thank you! Your onboarding is complete." := by
  rw [processUserResponse, dif_neg (Nat.not_lt.2 h)]

/-- Feeding one more answer runs `processUserResponse` on the state
reached by the earlier answers. -/
theorem runAnswers_append (s : AIService) (l : List String) (a : String) :
    runAnswers s (l ++ [a]) = (processUserResponse (runAnswers s l) a).2 := by
  simp [runAnswers, List.foldl_append]

end AIService

namespace AIService

theorem processUserResponse_index_of_lt (s : AIService) (a : String)
    (h : s.currentStepIndex < s.onboardingSteps.length) :
    (processUserResponse s a).2.currentStepIndex = s.currentStepIndex + 1 := by
  rw [processUserResponse_snd_of_lt s a h]

theorem processUserResponse_steps_length (s : AIService) (a : String) :
    (processUserResponse s a).2.onboardingSteps.length = s.onboardingSteps.length := by
  by_cases h : s.currentStepIndex < s.onboardingSteps.length
  · rw [processUserResponse_snd_of_lt s a h]
    exact List.length_set _ _ _
  · rw [processUserResponse_snd_of_ge s a (Nat.not_lt.1 h)]

theorem processUserResponse_steps_getElem (s : AIService) (a : String)
    (h : s.currentStepIndex < s.onboardingSteps.length) (i : Nat) :
    (processUserResponse s a).2.onboardingSteps[i]? =
      if i = s.currentStepIndex then
        (s.onboardingSteps[i]?).map fun st =>
          { st with completed := true, answer := some a }
      else s.onboardingSteps[i]? := by
  rw [processUserResponse_snd_of_lt s a h]
  dsimp only
  rw [List.getElem?_set]
  by_cases hi : i = s.currentStepIndex
  · subst hi
    rw [if_pos rfl, if_pos rfl, if_pos h, List.getElem?_eq_getElem h]
    simp [List.get_eq_getElem]
  · rw [if_neg (fun e => hi e.symm), if_neg hi]

end AIService

namespace AIService

theorem runAnswers_init_spec (inputs : List String) :
    inputs.length ≤ initSteps.length →
    (runAnswers init inputs).currentStepIndex = inputs.length ∧
    (runAnswers init inputs).onboardingSteps.length = initSteps.length ∧
    ∀ i, (runAnswers init inputs).onboardingSteps[i]? =
      (initSteps[i]?).map fun st =>
        if i < inputs.length then { st with completed := true, answer := inputs[i]? }
        else st := by
  induction inputs using List.reverseRecOn with
  | nil =>
      intro _
      refine ⟨rfl, rfl, fun i => ?_⟩
      simp [runAnswers, init]
  | append_singleton l a ih =>
      intro h
      have hlen : l.length < initSteps.length := by
        simp only [List.length_append, List.length_singleton] at h; omega
      obtain ⟨h1, h2, h3⟩ := ih (Nat.le_of_lt hlen)
      have hlt : (runAnswers init l).currentStepIndex <
          (runAnswers init l).onboardingSteps.length := by
        rw [h1, h2]; exact hlen
      rw [runAnswers_append]
      refine ⟨?_, ?_, fun i => ?_⟩
      · rw [processUserResponse_index_of_lt _ _ hlt, h1]
        simp
      · rw [processUserResponse_steps_length, h2]
      · rw [processUserResponse_steps_getElem _ _ hlt, h1, h3 i]
        by_cases hi : i = l.length
        · subst hi
          rw [if_pos rfl, List.getElem?_concat_length]
          simp
        · rw [if_neg hi]
          rcases Nat.lt_trichotomy i l.length with hc | hc | hc
          · have c2 : i < l.length + 1 := by omega
            simp only [List.length_append, List.length_singleton, if_pos hc, if_pos c2,
              List.getElem?_append_left hc]
          · exact absurd hc hi
          · have c1 : ¬ i < l.length := by omega
            have c2 : ¬ i < l.length + 1 := by omega
            simp only [List.length_append, List.length_singleton, if_neg c1, if_neg c2]

end AIService

namespace AIService

theorem processUserResponse_fst_of_lt (s : AIService) (a : String)
    (h : s.currentStepIndex < s.onboardingSteps.length) :
    (processUserResponse s a).1 =
      if h2 : s.currentStepIndex + 1 < s.onboardingSteps.length then
        (s.onboardingSteps.get ⟨s.currentStepIndex + 1, h2⟩).question
      else "Wonderful! Your onboarding is complete. Welcome aboard!" := by
  rw [processUserResponse, dif_pos h]
  dsimp only
  simp only [List.length_set]
  split
  · next h2 =>
      dsimp only
      simp only [List.get_eq_getElem]
      rw [List.getElem_set_ne (by omega)]
  · rfl

theorem reset_reset (s : AIService) : reset (reset s) = reset s := by
  simp [reset, List.map_map, Function.comp]

theorem reset_init : reset init = init := by
  rfl

theorem reset_processUserResponse (s : AIService) (a : String) :
    reset (processUserResponse s a).2 = reset s := by
  by_cases h : s.currentStepIndex < s.onboardingSteps.length
  · rw [processUserResponse_snd_of_lt s a h]
    simp only [reset, List.map_set, AIService.mk.injEq, true_and]
    apply List.ext_getElem?
    intro j
    rw [List.getElem?_set]
    by_cases hj : s.currentStepIndex = j
    · subst hj
      rw [if_pos rfl, if_pos (by simpa using h)]
      rw [List.getElem?_map, List.getElem?_eq_getElem h]
      simp [List.get_eq_getElem]
    · rw [if_neg hj]
  · rw [processUserResponse_snd_of_ge s a (Nat.not_lt.1 h)]

end AIService

namespace AIService

/-- C1: when `currentIndex < len(steps)`, `submitAnswer` (the source's
`processUserResponse`) marks the step at `currentIndex` as completed
with `answer = userText`, increments the cursor by one, and returns the
next question when the new cursor is still in range, else the exact
just-completed message. -/
theorem submitAnswer_spec (s : AIService) (userText : String)
    (h : s.currentStepIndex < s.onboardingSteps.length) :
    (processUserResponse s userText).2 =
      { currentStepIndex := s.currentStepIndex + 1,
        onboardingSteps := s.onboardingSteps.set s.currentStepIndex
          { s.onboardingSteps.get ⟨s.currentStepIndex, h⟩ with
            completed := true, answer := some userText } } ∧
    (∀ h2 : s.currentStepIndex + 1 < s.onboardingSteps.length,
      (processUserResponse s userText).1 =
        (s.onboardingSteps.get ⟨s.currentStepIndex + 1, h2⟩).question) ∧
    (s.currentStepIndex + 1 = s.onboardingSteps.length →
      (processUserResponse s userText).1 =
        "Wonderful! Your onboarding is complete. Welcome aboard!") := by
  refine ⟨processUserResponse_snd_of_lt s userText h, fun h2 => ?_, fun h2 => ?_⟩
  · rw [processUserResponse_fst_of_lt s userText h, dif_pos h2]
  · rw [processUserResponse_fst_of_lt s userText h, dif_neg (by omega)]

/-- Witness for C1 at the fresh engine with input "Alice". -/
theorem submitAnswer_spec_witness :
    (processUserResponse init "Alice").1 =
      "Nice to meet you! What brings you to our app today?" := by
  obtain ⟨_, h2, _⟩ := submitAnswer_spec init "Alice" (by decide)
  rw [h2 (by decide)]
  rfl

/-- C2: once `currentIndex == len(steps)`, `submitAnswer` changes
nothing and returns the already-complete message, which differs from
the just-completed message. -/
theorem submitAnswer_terminal_noop (s : AIService) (userText : String)
    (h : s.currentStepIndex = s.onboardingSteps.length) :
    (processUserResponse s userText).2 = s ∧
    (processUserResponse s userText).1 = "Thank you! Your onboarding is complete." ∧
    "Thank you! Your onboarding is complete." ≠
      "Wonderful! Your onboarding is complete. Welcome aboard!" :=
  ⟨processUserResponse_snd_of_ge s userText (le_of_eq h.symm),
   processUserResponse_fst_of_ge s userText (le_of_eq h.symm), by decide⟩

/-- Witness for C2 at the state reached after five answers. -/
theorem submitAnswer_terminal_noop_witness :
    (processUserResponse (runAnswers init ["a", "b", "c", "d", "e"]) "f").2 =
      runAnswers init ["a", "b", "c", "d", "e"] ∧
    (processUserResponse (runAnswers init ["a", "b", "c", "d", "e"]) "f").1 =
      "Thank you! Your onboarding is complete." := by
  obtain ⟨h1, h2, _⟩ :=
    submitAnswer_terminal_noop (runAnswers init ["a", "b", "c", "d", "e"]) "f" (by decide)
  exact ⟨h1, h2⟩

/-- C3: the concrete five-step scenario: first prompt, the reply and
progress after "Alice", completion flag, progress and the fifth
return value after five answers, and the unchanged-state sixth call. -/
theorem five_step_script_run :
    getCurrentQuestion init =
      "Hello! Welcome to our app. I\x27m your voice assistant. What\x27s your name?" ∧
    (processUserResponse init "Alice").1 =
      "Nice to meet you! What brings you to our app today?" ∧
    getProgress (processUserResponse init "Alice").2 = 20 ∧
    isOnboardingComplete (runAnswers init ["Alice", "b", "c", "d", "e"]) = true ∧
    getProgress (runAnswers init ["Alice", "b", "c", "d", "e"]) = 100 ∧
    (processUserResponse (runAnswers init ["Alice", "b", "c", "d"]) "e").1 =
      "Wonderful! Your onboarding is complete. Welcome aboard!" ∧
    (processUserResponse (runAnswers init ["Alice", "b", "c", "d", "e"]) "f").1 =
      "Thank you! Your onboarding is complete." ∧
    (processUserResponse (runAnswers init ["Alice", "b", "c", "d", "e"]) "f").2 =
      runAnswers init ["Alice", "b", "c", "d", "e"] := by
  refine ⟨by decide, by decide, ?_, by decide, ?_, by decide, by decide, by decide⟩
  · show ((1 : ℕ) : ℚ) / ((5 : ℕ) : ℚ) * 100 = 20
    norm_num
  · show ((5 : ℕ) : ℚ) / ((5 : ℕ) : ℚ) * 100 = 100
    norm_num

/-- C10: the placeholder AI entry point `processWithAI` delegates to
`processUserResponse`, so the two produce the same string and the same
state transition on every state and input. -/
theorem processWithAI_eq_processUserResponse (s : AIService) (userInput : String) :
    processWithAI s userInput = processUserResponse s userInput := rfl

end AIService

namespace AIService

theorem inv_init : Inv init := by
  constructor
  · decide
  · intro i h
    have h5 : i < 5 := by simpa [init, initSteps] using h
    interval_cases i <;> rfl

theorem inv_processUserResponse (s : AIService) (a : String) (hs : Inv s) :
    Inv (processUserResponse s a).2 := by
  obtain ⟨h1, h2⟩ := hs
  by_cases h : s.currentStepIndex < s.onboardingSteps.length
  · rw [processUserResponse_snd_of_lt s a h]
    refine ⟨by simpa [List.length_set] using h, fun i hi => ?_⟩
    simp only [List.length_set] at hi
    simp only [List.get_eq_getElem, List.getElem_set]
    by_cases hic : s.currentStepIndex = i
    · subst hic
      simp
    · rw [if_neg hic]
      have hprev := h2 i hi
      simp only [List.get_eq_getElem] at hprev
      rw [hprev]
      exact decide_eq_decide.2 (by omega)
  · rw [processUserResponse_snd_of_ge s a (Nat.not_lt.1 h)]
    exact ⟨h1, h2⟩

theorem inv_reset (s : AIService) : Inv (reset s) := by
  refine ⟨Nat.zero_le _, fun i hi => ?_⟩
  simp only [reset, List.length_map] at hi
  simp only [reset, List.get_eq_getElem, List.getElem_map]
  simp

/-- C5: the `FlowState` invariant — cursor within bounds, steps before
the cursor completed, steps from the cursor on not completed — holds in
every reachable state: it holds initially and is preserved by
`processUserResponse` and `reset` (the remaining operations do not
touch the state). -/
theorem flowState_invariant (s : AIService) (h : Reachable s) : Inv s := by
  induction h with
  | init => exact inv_init
  | answer s a _ ih => exact inv_processUserResponse s a ih
  | doReset s _ _ => exact inv_reset s

/-- Witness for C5 at the fresh engine. -/
theorem flowState_invariant_witness : Inv init :=
  flowState_invariant init Reachable.init

theorem reset_eq_init_of_reachable (s : AIService) (h : Reachable s) :
    reset s = init := by
  induction h with
  | init => exact reset_init
  | answer s a _ ih => rw [reset_processUserResponse, ih]
  | doReset s _ ih => rw [reset_reset, ih]

/-- C7: `reset` zeroes the cursor and clears every step; it is
idempotent on every state; and on any reachable state it restores the
fresh engine, so the next `currentPrompt` is byte-for-byte the fresh
first prompt. -/
theorem reset_spec (s : AIService) :
    ((reset s).currentStepIndex = 0 ∧
      ∀ st ∈ (reset s).onboardingSteps, st.completed = false ∧ st.answer = none) ∧
    reset (reset s) = reset s ∧
    (Reachable s → getCurrentQuestion (reset s) = getCurrentQuestion init) := by
  refine ⟨⟨rfl, fun st hst => ?_⟩, reset_reset s, fun hr => ?_⟩
  · simp only [reset, List.mem_map] at hst
    obtain ⟨st0, _, rfl⟩ := hst
    exact ⟨rfl, rfl⟩
  · rw [reset_eq_init_of_reachable s hr]

/-- Witness for C7 at the state reached after two answers. -/
theorem reset_spec_witness :
    getCurrentQuestion (reset (runAnswers init ["a", "b"])) = getCurrentQuestion init := by
  have h := (reset_spec (runAnswers init ["a", "b"])).2.2
  exact h (Reachable.answer _ "b" (Reachable.answer _ "a" Reachable.init))

end AIService

namespace AIService

/-- C4: after `n ≤ len(steps)` answers from fresh, with arbitrary
strings, `getProgress` is exactly `100*n/len(steps)` — an exact
rational in `[0, 100]` — and `isOnboardingComplete` holds iff
`n = len(steps)`. -/
theorem progress_after_n (inputs : List String)
    (h : inputs.length ≤ initSteps.length) :
    getProgress (runAnswers init inputs) =
      100 * (inputs.length : ℚ) / (initSteps.length : ℚ) ∧
    0 ≤ getProgress (runAnswers init inputs) ∧
    getProgress (runAnswers init inputs) ≤ 100 ∧
    (isOnboardingComplete (runAnswers init inputs) = true ↔
      inputs.length = initSteps.length) := by
  obtain ⟨h1, h2, _⟩ := runAnswers_init_spec inputs h
  have hlen : initSteps.length = 5 := rfl
  have hn5 : inputs.length ≤ 5 := hlen ▸ h
  have hprog : getProgress (runAnswers init inputs) = (inputs.length : ℚ) / 5 * 100 := by
    rw [getProgress, h1, h2, hlen]
    norm_num
  refine ⟨?_, ?_, ?_, ?_⟩
  · rw [hprog, hlen]
    push_cast
    ring
  · rw [hprog]
    positivity
  · rw [hprog]
    have hq : (inputs.length : ℚ) ≤ 5 := by exact_mod_cast hn5
    rw [div_mul_eq_mul_div, div_le_iff₀ (by norm_num)]
    linarith
  · rw [isOnboardingComplete, h1, h2, hlen]
    simp only [decide_eq_true_eq]
    omega

/-- Witness for C4 after two answers. -/
theorem progress_after_n_witness :
    getProgress (runAnswers init ["a", "b"]) =
      100 * ((["a", "b"] : List String).length : ℚ) / (initSteps.length : ℚ) ∧
    (isOnboardingComplete (runAnswers init ["a", "b"]) = true ↔
      (["a", "b"] : List String).length = initSteps.length) := by
  obtain ⟨hp, _, _, hc⟩ := progress_after_n ["a", "b"] (by decide)
  exact ⟨hp, hc⟩

end AIService

namespace AIService

/-- C6: answers are recorded in call order: before the `k`-th call the
cursor sits at `k-1`, the `k`-th call rewrites only the step at index
`k-1`, marking it completed with the `k`-th answer, and after all the
calls the step at each index `i` holds the `(i+1)`-th answer. -/
theorem answers_recorded_in_order (inputs : List String)
    (h : inputs.length ≤ initSteps.length) :
    (∀ k, 1 ≤ k → k ≤ inputs.length →
      (runAnswers init (inputs.take (k - 1))).currentStepIndex = k - 1 ∧
      (∀ j, j ≠ k - 1 →
        (runAnswers init (inputs.take k)).onboardingSteps[j]? =
          (runAnswers init (inputs.take (k - 1))).onboardingSteps[j]?) ∧
      (∃ st, (runAnswers init (inputs.take k)).onboardingSteps[k - 1]? = some st ∧
        st.completed = true ∧ st.answer = inputs[k - 1]?)) ∧
    (∀ i, i < inputs.length →
      ∃ st, (runAnswers init inputs).onboardingSteps[i]? = some st ∧
        st.completed = true ∧ st.answer = inputs[i]?) := by
  have hfull := runAnswers_init_spec inputs h
  constructor
  · intro k hk1 hk2
    have htk1 : (inputs.take (k - 1)).length = k - 1 := by
      rw [List.length_take]; omega
    have htk : (inputs.take k).length = k := by
      rw [List.length_take]; omega
    obtain ⟨hA1, hA2, hA3⟩ := runAnswers_init_spec (inputs.take (k - 1)) (by omega)
    obtain ⟨hB1, hB2, hB3⟩ := runAnswers_init_spec (inputs.take k) (by omega)
    refine ⟨by rw [hA1, htk1], fun j hj => ?_, ?_⟩
    · rw [hA3 j, hB3 j]
      simp only [htk, htk1]
      rcases Nat.lt_trichotomy j (k - 1) with hc | hc | hc
      · have e1 : (inputs.take k)[j]? = inputs[j]? :=
          List.getElem?_take_of_lt (by omega)
        have e2 : (inputs.take (k - 1))[j]? = inputs[j]? :=
          List.getElem?_take_of_lt (by omega)
        simp only [e1, e2, if_pos hc, if_pos (show j < k by omega)]
      · exact absurd hc hj
      · simp only [if_neg (show ¬ j < k by omega), if_neg (show ¬ j < k - 1 by omega)]
    · have hk5 : k - 1 < initSteps.length := by
        have : initSteps.length = 5 := rfl
        omega
      refine ⟨{ initSteps.get ⟨k - 1, hk5⟩ with completed := true, answer := inputs[k - 1]? }, ?_, rfl, rfl⟩
      rw [hB3 (k - 1)]
      simp only [htk]
      have e1 : (inputs.take k)[k - 1]? = inputs[k - 1]? :=
        List.getElem?_take_of_lt (by omega)
      rw [List.getElem?_eq_getElem hk5]
      simp only [if_pos (show k - 1 < k by omega), e1, List.get_eq_getElem]
      rfl
  · intro i hi
    obtain ⟨_, _, h3⟩ := hfull
    have hi5 : i < initSteps.length := by
      have : initSteps.length = 5 := rfl
      omega
    refine ⟨{ initSteps.get ⟨i, hi5⟩ with completed := true, answer := inputs[i]? }, ?_, rfl, rfl⟩
    rw [h3 i, List.getElem?_eq_getElem hi5]
    simp only [if_pos hi, List.get_eq_getElem]
    rfl

/-- Witness for C6 with the two answers "a", "b". -/
theorem answers_recorded_in_order_witness :
    ∃ st, (runAnswers init ["a", "b"]).onboardingSteps[1]? = some st ∧
      st.completed = true ∧ st.answer = (["a", "b"] : List String)[1]? := by
  obtain ⟨_, hD⟩ := answers_recorded_in_order ["a", "b"] (by decide)
  exact hD 1 (by decide)

end AIService

namespace AIService

/-- C8: `getCurrentQuestion` returns the question at the cursor while
the cursor is in range and the fixed completion message once
`currentIndex == len(steps)`; being a plain function of the state in
this embedding, it cannot change the state, and repeated calls return
the same string. -/
theorem currentPrompt_spec (s : AIService) :
    (∀ h : s.currentStepIndex < s.onboardingSteps.length,
      getCurrentQuestion s = (s.onboardingSteps.get ⟨s.currentStepIndex, h⟩).question) ∧
    (s.currentStepIndex = s.onboardingSteps.length →
      getCurrentQuestion s =
        "Thank you for completing the onboarding! Let\x27s get started.") := by
  constructor
  · intro h
    rw [getCurrentQuestion, dif_pos h]
  · intro h
    rw [getCurrentQuestion, dif_neg (by omega)]

/-- Witness for C8 at the fresh engine and at the finished engine. -/
theorem currentPrompt_spec_witness :
    getCurrentQuestion init =
      "Hello! Welcome to our app. I\x27m your voice assistant. What\x27s your name?" ∧
    getCurrentQuestion (runAnswers init ["a", "b", "c", "d", "e"]) =
      "Thank you for completing the onboarding! Let\x27s get started." := by
  constructor
  · rw [(currentPrompt_spec init).1 (by decide)]
    rfl
  · exact (currentPrompt_spec (runAnswers init ["a", "b", "c", "d", "e"])).2 (by decide)

/-- C9: the engine is total over its inputs: every operation is a
plain total function of the state in this embedding (no exceptions, no
partiality), an out-of-range `submitAnswer` leaves the state untouched
for every input string, and the empty string is accepted and stored
literally as the answer of the current step. -/
theorem engine_total (s : AIService) :
    (s.onboardingSteps.length ≤ s.currentStepIndex →
      ∀ userText, (processUserResponse s userText).2 = s) ∧
    (∀ h : s.currentStepIndex < s.onboardingSteps.length,
      (processUserResponse s "").2.onboardingSteps[s.currentStepIndex]? =
        some { s.onboardingSteps.get ⟨s.currentStepIndex, h⟩ with
               completed := true, answer := some "" }) := by
  constructor
  · intro h userText
    exact processUserResponse_snd_of_ge s userText h
  · intro h
    rw [processUserResponse_steps_getElem s "" h, if_pos rfl, List.getElem?_eq_getElem h]
    simp only [List.get_eq_getElem]
    rfl

/-- Witness for C9: the sixth call is a no-op, and an empty answer is
stored literally on the fresh engine. -/
theorem engine_total_witness :
    (processUserResponse (runAnswers init ["a", "b", "c", "d", "e"]) "x").2 =
      runAnswers init ["a", "b", "c", "d", "e"] ∧
    (processUserResponse init "").2.onboardingSteps[0]? =
      some { initSteps.get ⟨0, by decide⟩ with completed := true, answer := some "" } := by
  constructor
  · exact (engine_total (runAnswers init ["a", "b", "c", "d", "e"])).1 (by decide) "x"
  · exact (engine_total init).2 (by decide)

end AIService
